import Mathlib

/-!
Verification of the inventory-bot core (`src/project/bot.py`).

The program's mutable state is embedded shallowly:

* Python `dict`s (insertion-ordered, unique keys) become association lists
  `Dict α := List (String × α)`; `Dict.set` replaces the value at the first
  occurrence of a key in place and appends fresh keys at the end, exactly as
  Python dict assignment behaves on the unique-key dictionaries the program
  builds.
* The ledger file `data.json` is modelled at two levels.  `FileContent`
  with `load_stock_py` is the full translation of `load_stock`: the file is
  missing, unreadable as UTF-8, undecodable as JSON, or holds a decoded
  JSON value, and the result is an `Except` because only
  `json.JSONDecodeError` is caught — a non-object document or a quantity
  `int()` rejects makes the exception propagate to the caller.
  `FileState` with the `Dict Int`-valued `load_stock` is its restriction
  to the states on which no exception escapes (missing, undecodable, or a
  flat integer object — the only documents the program itself writes);
  the commit and view handlers are stated over this restriction, and the
  two loaders are proved to agree on it.  The orders log becomes
  `LogFile` likewise.
* The catalog `ITEMS` and the default stock `STOCK` live in an `items`
  module that is not part of the sources; every definition is parameterised
  over them, so all theorems hold for an arbitrary catalog.
* Chat I/O is dropped; each handler becomes a function from its inputs
  (session, file states, identity, clock reading) to the new states and the
  reply it renders.  A ledger write that raises is modelled by the `saveOk`
  Boolean input of the confirm handlers: when it is false the handler stops
  at `save_stock` exactly as the propagating exception does.
-/

namespace StockBot

/-- Association-list model of a Python `dict` keyed by strings. -/
abbrev Dict (α : Type) := List (String × α)

namespace Dict

/-- Lookup: first entry with the given key, like `d[k]` / `d.get(k)`. -/
def get? (d : Dict α) (k : String) : Option α :=
  (d.find? (fun p => p.1 = k)).map Prod.snd

/-- Lookup with default, like Python `d.get(k, v₀)`. -/
def getD (d : Dict α) (k : String) (v₀ : α) : α :=
  (d.get? k).getD v₀

/-- Assignment `d[k] = v`: replace in place at the first occurrence of the
key, append at the end when the key is fresh (Python dict semantics). -/
def set : Dict α → String → α → Dict α
  | [], k, v => [(k, v)]
  | p :: tl, k, v => if p.1 = k then (k, v) :: tl else p :: set tl k v

/-- The keys of a dict, in order. -/
def keys (d : Dict α) : List String := d.map Prod.fst

end Dict

/-- Every value stored in the dict is nonnegative. -/
def NonnegD (d : Dict Int) : Prop := ∀ p ∈ d, (0 : Int) ≤ p.2

instance (d : Dict Int) : Decidable (NonnegD d) := by
  unfold NonnegD; infer_instance

/-- The no-raise states of the on-disk ledger document `data.json`:
absent, content `json.load` rejects (recovered), or a decoded flat
integer object.  `FileContent` below extends this to the full state
space, on part of which the real `load_stock` raises. -/
inductive FileState
  | missing
  | corrupt
  | parsed (data : Dict Int)
deriving DecidableEq

/-- One transaction record of the orders log. -/
structure Record where
  type : String
  user_id : Int
  username : Option String
  basket : Dict Int
  return_date : Option String
  timestamp : String
deriving DecidableEq

/-- State of the on-disk orders log `orders.json`. -/
inductive LogFile
  | missing
  | corrupt
  | parsed (records : List Record)
deriving DecidableEq

/-- The record sequence a log file state denotes: unreadable or absent
content is treated as the empty sequence, as in `append_order_record`. -/
def log_contents : LogFile → List Record
  | LogFile.parsed rs => rs
  | _ => []

/-- `load_stock` on the no-raise states: catalog defaults overridden by
whatever was persisted; a missing file or undecodable content contributes
no overrides.  This is the restriction of `load_stock_py` below to the
states on which it returns normally (`load_py_agrees_on_flat` &c.). -/
def load_stock (STOCK : Dict Int) (file : FileState) : Dict Int :=
  let data : Dict Int :=
    match file with
    | FileState.parsed d => d
    | _ => []
  data.foldl (fun merged p => merged.set p.1 p.2) STOCK

/-- `save_stock`: whole-document replace of the ledger file. -/
def save_stock (stock : Dict Int) : FileState :=
  FileState.parsed stock

/-- A decoded JSON value as `json.load` returns it.  JSON floats are not
modelled: no claim involves them and the program never writes them. -/
inductive JsonVal
  | null
  | bool (b : Bool)
  | int (n : Int)
  | str (s : String)
  | arr (xs : List JsonVal)
  | obj (fields : List (String × JsonVal))

/-- The exceptions `load_stock` lets escape past its single
`except json.JSONDecodeError` handler. -/
inductive PyError
  | decodeError
  | attributeError
  | conversionError
deriving DecidableEq

/-- Python `int(v)` on a decoded JSON value: integers pass through,
booleans convert to 0 or 1, strings succeed exactly when they spell an
integer (modelled by `String.toInt?`; the fringe of Python's string
grammar, such as surrounding whitespace, is not load-bearing for any
claim), and `null`, arrays and objects raise `TypeError`. -/
def pyInt : JsonVal → Option Int
  | JsonVal.int n => some n
  | JsonVal.bool b => some (if b then 1 else 0)
  | JsonVal.str s => s.toInt?
  | _ => none

/-- Full state space of the ledger file as `load_stock` sees it: absent;
bytes the text read cannot decode as UTF-8 (`UnicodeDecodeError`, not
caught); text `json.load` rejects (`json.JSONDecodeError`, caught); or a
decoded JSON value. -/
inductive FileContent
  | missing
  | badEncoding
  | undecodable
  | decoded (v : JsonVal)

/-- One iteration of the merge loop `merged[name] = int(qty)`: the write
when `int` succeeds, a propagating `TypeError`/`ValueError` when it does
not. -/
def load_step (merged : Dict Int) (p : String × JsonVal) :
    Except PyError (Dict Int) :=
  match pyInt p.2 with
  | some n => Except.ok (merged.set p.1 n)
  | none => Except.error PyError.conversionError

/-- `load_stock` over the full persisted-state space.  A missing file and
a `json.JSONDecodeError` yield no overrides; every other failure
propagates: `UnicodeDecodeError` from the read, `AttributeError` from
`data.items()` on a decoded non-object, and `TypeError`/`ValueError`
from `int(qty)`. -/
def load_stock_py (STOCK : Dict Int) (file : FileContent) :
    Except PyError (Dict Int) :=
  match file with
  | FileContent.missing => Except.ok STOCK
  | FileContent.badEncoding => Except.error PyError.decodeError
  | FileContent.undecodable => Except.ok STOCK
  | FileContent.decoded (JsonVal.obj fields) => fields.foldlM load_step STOCK
  | FileContent.decoded _ => Except.error PyError.attributeError

/-- `append_order_record`: read the existing sequence (corrupt or missing
content counts as empty), append, write back the whole sequence. -/
def append_order_record (lf : LogFile) (record : Record) : LogFile :=
  LogFile.parsed (log_contents lf ++ [record])

/-- Per-user session state. -/
structure Session where
  basket : Dict Int
  return_date : Option String
  mode : String
deriving DecidableEq

/-- `paginate`: page count, clamped page, half-open slice bounds.
Python `//` is floor division, hence `Int.fdiv`. -/
def paginate (total per_page page : Int) : Int × Int × Int :=
  let pages := max 1 ((total + per_page - 1).fdiv per_page)
  let page := max 0 (min page (pages - 1))
  let start := page * per_page
  let stop := min total (start + per_page)
  (start, stop, pages)

/-- One inline button: label and callback payload. -/
structure Button where
  text : String
  callback_data : String
deriving DecidableEq

/-- `items_keyboard`: the picker page `page` over the catalog, one row of
plus/minus buttons per visible item, nav arrows, and a back row. -/
def items_keyboard (ITEMS : List String) (pfx : String) (page : Int) :
    List (List Button) :=
  let per_page : Int := 10
  let r := paginate ITEMS.length per_page page
  let start := r.1
  let stop := r.2.1
  let pages := r.2.2
  let itemRows := (List.range' start.toNat (stop - start).toNat).map
    (fun idx =>
      let item := ITEMS.getD idx ""
      [⟨"➕ " ++ item, pfx ++ "_add_" ++ toString idx⟩,
       ⟨"➖ " ++ item, pfx ++ "_remove_" ++ toString idx⟩])
  let nav :=
    (if page > 0 then [(⟨"⬅️", pfx ++ "_items_page_" ++ toString (page - 1)⟩ : Button)] else [])
    ++ (if page < pages - 1 then [(⟨"➡️", pfx ++ "_items_page_" ++ toString (page + 1)⟩ : Button)] else [])
  itemRows ++ (if nav.isEmpty then [] else [nav])
    ++ [[⟨"⬅️ Назад", pfx ++ "_items_back"⟩]]

/-- `render_basket_text`: title, then one line per positive-count entry, or
the fixed placeholder when no entry is positive. -/
def render_basket_text (basket : Dict Int) (title : String) : String :=
  let entry_lines := (basket.filter (fun p => p.2 > 0)).map
    (fun p => p.1 ++ " × " ++ toString p.2)
  let lines := if entry_lines.isEmpty then [title, "пока пусто…"]
    else title :: entry_lines
  String.intercalate "\n" lines

/-- Basket increment, the shared body of `order_add` and `return_add`:
`basket[item] = basket.get(item, 0) + 1`. -/
def basket_add (b : Dict Int) (item : String) : Dict Int :=
  b.set item (b.getD item 0 + 1)

/-- Basket decrement, the shared body of `order_remove` and
`return_remove`: decrement only when the current count is positive. -/
def basket_remove (b : Dict Int) (item : String) : Dict Int :=
  if b.getD item 0 > 0 then b.set item (b.getD item 0 - 1) else b

/-- `order_add` handler: mutate the basket, re-render the basket text with
the order picker keyboard at page 0. -/
def order_add (ITEMS : List String) (sess : Session) (idx : Nat) :
    Session × String × List (List Button) :=
  let item := ITEMS.getD idx ""
  let basket2 := basket_add sess.basket item
  ({ sess with basket := basket2 },
   render_basket_text basket2 "📝 Текущий заказ:",
   items_keyboard ITEMS "order" 0)

/-- `order_remove` handler. -/
def order_remove (ITEMS : List String) (sess : Session) (idx : Nat) :
    Session × String × List (List Button) :=
  let item := ITEMS.getD idx ""
  let basket2 := basket_remove sess.basket item
  ({ sess with basket := basket2 },
   render_basket_text basket2 "📝 Текущий заказ:",
   items_keyboard ITEMS "order" 0)

/-- `return_add` handler. -/
def return_add (ITEMS : List String) (sess : Session) (idx : Nat) :
    Session × String × List (List Button) :=
  let item := ITEMS.getD idx ""
  let basket2 := basket_add sess.basket item
  ({ sess with basket := basket2 },
   render_basket_text basket2 "📝 К возврату:",
   items_keyboard ITEMS "return" 0)

/-- `return_remove` handler. -/
def return_remove (ITEMS : List String) (sess : Session) (idx : Nat) :
    Session × String × List (List Button) :=
  let item := ITEMS.getD idx ""
  let basket2 := basket_remove sess.basket item
  ({ sess with basket := basket2 },
   render_basket_text basket2 "📝 К возврату:",
   items_keyboard ITEMS "return" 0)

/-- The effective basket of a commit: entries with a positive count. -/
def effective (basket : Dict Int) : Dict Int :=
  basket.filter (fun p => p.2 > 0)

/-- Result classification of a confirm handler run. -/
inductive Outcome
  | ok
  | emptyBasket
  | insufficient (item : String)
  | persistError
deriving DecidableEq

/-- Full result of a confirm handler: outcome plus the ledger file, log
file and session it leaves behind. -/
structure CommitResult where
  outcome : Outcome
  file : FileState
  log : LogFile
  session : Session
deriving DecidableEq

/-- `order_confirm` handler: build the effective basket, bail out when it
is empty, load the ledger, validate every entry against stock, subtract,
persist, append the record, reset the session.  `saveOk = false` models
`save_stock` raising: the handler aborts there, leaving log and session
untouched. -/
def order_confirm (STOCK : Dict Int) (file : FileState) (lf : LogFile)
    (sess : Session) (user_id : Int) (username : Option String)
    (ts : String) (saveOk : Bool) : CommitResult :=
  let order := effective sess.basket
  if order.isEmpty then
    ⟨Outcome.emptyBasket, file, lf, sess⟩
  else
    let stock := load_stock STOCK file
    match order.find? (fun p => stock.getD p.1 0 < p.2) with
    | some p => ⟨Outcome.insufficient p.1, file, lf, sess⟩
    | none =>
      let stock2 := order.foldl (fun s p => s.set p.1 (s.getD p.1 0 - p.2)) stock
      if saveOk then
        ⟨Outcome.ok, save_stock stock2,
         append_order_record lf
           ⟨"order", user_id, username, order, sess.return_date, ts⟩,
         { sess with basket := [], return_date := none }⟩
      else
        ⟨Outcome.persistError, file, lf, sess⟩

/-- `return_confirm` handler: like `order_confirm` but additions need no
sufficiency check. -/
def return_confirm (STOCK : Dict Int) (file : FileState) (lf : LogFile)
    (sess : Session) (user_id : Int) (username : Option String)
    (ts : String) (saveOk : Bool) : CommitResult :=
  let ret := effective sess.basket
  if ret.isEmpty then
    ⟨Outcome.emptyBasket, file, lf, sess⟩
  else
    let stock := load_stock STOCK file
    let stock2 := ret.foldl (fun s p => s.set p.1 (s.getD p.1 0 + p.2)) stock
    if saveOk then
      ⟨Outcome.ok, save_stock stock2,
       append_order_record lf
         ⟨"return", user_id, username, ret, sess.return_date, ts⟩,
       { sess with basket := [], return_date := none }⟩
    else
      ⟨Outcome.persistError, file, lf, sess⟩

/-- A basket edit event: one tap on a plus or a minus button. -/
inductive BasketOp
  | inc (item : String)
  | dec (item : String)

/-- Apply a sequence of basket edits to the fresh (empty) basket of a new
session. -/
def apply_basket_ops (ops : List BasketOp) : Dict Int :=
  ops.foldl
    (fun b op =>
      match op with
      | BasketOp.inc i => basket_add b i
      | BasketOp.dec i => basket_remove b i)
    []

section DictLemmas

open Dict

lemma get?_cons (p : String × α) (tl : Dict α) (k : String) :
    Dict.get? (p :: tl) k = if p.1 = k then some p.2 else Dict.get? tl k := by
  by_cases h : p.1 = k
  · simp [Dict.get?, List.find?_cons, h]
  · simp [Dict.get?, List.find?_cons, h]

lemma get?_set_self (d : Dict α) (k : String) (v : α) :
    (d.set k v).get? k = some v := by
  induction d with
  | nil => simp [Dict.set, get?_cons]
  | cons p tl ih =>
    by_cases h : p.1 = k
    · simp [Dict.set, h, get?_cons]
    · simp [Dict.set, h, get?_cons, ih]

lemma get?_set_ne (d : Dict α) (k j : String) (v : α) (h : j ≠ k) :
    (d.set k v).get? j = d.get? j := by
  have hkj : k ≠ j := Ne.symm h
  induction d with
  | nil => simp [Dict.set, get?_cons, hkj]
  | cons p tl ih =>
    by_cases hp : p.1 = k
    · subst hp
      simp [Dict.set, get?_cons, hkj]
    · simp [Dict.set, hp, get?_cons, ih]

lemma getD_set_ne (d : Dict Int) (k j : String) (v v₀ : Int) (h : j ≠ k) :
    (d.set k v).getD j v₀ = d.getD j v₀ := by
  unfold Dict.getD
  rw [get?_set_ne d k j v h]

lemma mem_of_get?_eq_some {d : Dict α} {k : String} {v : α}
    (h : d.get? k = some v) : (k, v) ∈ d := by
  induction d with
  | nil => simp [Dict.get?] at h
  | cons p tl ih =>
    rw [get?_cons] at h
    by_cases hp : p.1 = k
    · rw [if_pos hp] at h
      cases h
      cases p
      cases hp
      exact List.mem_cons_self _ _
    · rw [if_neg hp] at h
      exact List.mem_cons_of_mem _ (ih h)

lemma get?_of_mem_nodup {d : Dict α} {k : String} {v : α}
    (hnd : d.keys.Nodup) (h : (k, v) ∈ d) : d.get? k = some v := by
  induction d with
  | nil => cases h
  | cons p tl ih =>
    rw [get?_cons]
    rcases List.mem_cons.mp h with heq | htl
    · rw [← heq]
      simp
    · have hk : k ∈ tl.map Prod.fst := List.mem_map_of_mem Prod.fst htl
      have hne : p.1 ≠ k := by
        intro he
        have : p.1 ∉ tl.map Prod.fst := (List.nodup_cons.mp hnd).1
        exact this (he ▸ hk)
      rw [if_neg hne]
      exact ih (List.nodup_cons.mp hnd).2 htl

lemma getD_eq_get? (d : Dict Int) (k : String) (v₀ : Int) :
    d.getD k v₀ = (d.get? k).getD v₀ := rfl

lemma getD_nonneg {d : Dict Int} (hd : NonnegD d) (k : String) :
    0 ≤ d.getD k 0 := by
  unfold Dict.getD
  cases h : d.get? k with
  | none => simp
  | some v => simpa using hd _ (mem_of_get?_eq_some h)

lemma nonneg_set {v : Int} (hv : 0 ≤ v) (k : String) :
    ∀ {d : Dict Int}, NonnegD d → NonnegD (d.set k v) := by
  intro d
  induction d with
  | nil =>
    intro _ q hq
    simp [Dict.set] at hq
    simp [hq, hv]
  | cons p tl ih =>
    intro hd q hq
    by_cases hp : p.1 = k
    · simp only [Dict.set, if_pos hp] at hq
      rcases List.mem_cons.mp hq with rfl | hq2
      · exact hv
      · exact hd _ (List.mem_cons_of_mem _ hq2)
    · simp only [Dict.set, if_neg hp] at hq
      rcases List.mem_cons.mp hq with rfl | hq2
      · exact hd _ (List.mem_cons_self _ _)
      · exact ih (fun r hr => hd _ (List.mem_cons_of_mem _ hr)) _ hq2

end DictLemmas

section FoldLemmas

/-- Folding a read-modify-write step over entries none of which carries the
key `j` leaves the value at `j` untouched. -/
lemma foldl_set_get?_of_ne (step : Dict Int → String × Int → Dict Int)
    (g : Int → Int → Int)
    (hstep : ∀ s p, step s p = s.set p.1 (g (s.getD p.1 0) p.2))
    (E : Dict Int) (s : Dict Int) (j : String) (hj : ∀ p ∈ E, p.1 ≠ j) :
    (E.foldl step s).get? j = s.get? j := by
  induction E generalizing s with
  | nil => rfl
  | cons p tl ih =>
    rw [List.foldl_cons, ih _ (fun q hq => hj q (List.mem_cons_of_mem _ hq)),
      hstep]
    exact get?_set_ne _ _ _ _ (hj p (List.mem_cons_self _ _)).symm

/-- With pairwise-distinct keys, a read-modify-write fold writes
`g (old value) q` at the key of each entry `(i, q)`. -/
lemma foldl_set_get?_of_mem (step : Dict Int → String × Int → Dict Int)
    (g : Int → Int → Int)
    (hstep : ∀ s p, step s p = s.set p.1 (g (s.getD p.1 0) p.2))
    (E : Dict Int) (s : Dict Int) (i : String) (q : Int)
    (hnd : (E.map Prod.fst).Nodup) (h : (i, q) ∈ E) :
    (E.foldl step s).get? i = some (g (s.getD i 0) q) := by
  induction E generalizing s with
  | nil => cases h
  | cons p tl ih =>
    rw [List.foldl_cons]
    rcases List.mem_cons.mp h with heq | htl
    · subst heq
      have hkeys : ∀ r ∈ tl, r.1 ≠ i := by
        intro r hr he
        have hout : (i, q).1 ∉ tl.map Prod.fst := (List.nodup_cons.mp hnd).1
        have hi : i ∈ tl.map Prod.fst := by
          rw [← he]
          exact List.mem_map_of_mem Prod.fst hr
        exact hout hi
      rw [foldl_set_get?_of_ne step g hstep tl _ i hkeys, hstep]
      exact get?_set_self s i (g (s.getD i 0) q)
    · have hne : i ≠ p.1 := by
        intro he
        have hout : p.1 ∉ tl.map Prod.fst := (List.nodup_cons.mp hnd).1
        have hi : i ∈ tl.map Prod.fst := List.mem_map_of_mem Prod.fst htl
        rw [he] at hi
        exact hout hi
      rw [ih _ (List.nodup_cons.mp hnd).2 htl, hstep,
        getD_set_ne s p.1 i _ 0 hne]

/-- A read-modify-write fold over pairwise-distinct keys keeps every stored
value nonnegative as long as each write is nonnegative against the starting
state. -/
lemma foldl_set_nonneg (step : Dict Int → String × Int → Dict Int)
    (g : Int → Int → Int)
    (hstep : ∀ s p, step s p = s.set p.1 (g (s.getD p.1 0) p.2))
    (E : Dict Int) (s : Dict Int)
    (hnd : (E.map Prod.fst).Nodup) (hs : NonnegD s)
    (hval : ∀ p ∈ E, 0 ≤ g (s.getD p.1 0) p.2) :
    NonnegD (E.foldl step s) := by
  induction E generalizing s with
  | nil => exact hs
  | cons p tl ih =>
    rw [List.foldl_cons, hstep]
    refine ih _ (List.nodup_cons.mp hnd).2
      (nonneg_set (hval p (List.mem_cons_self _ _)) p.1 hs) ?_
    intro r hr
    have hne : r.1 ≠ p.1 := by
      intro he
      have hout : p.1 ∉ tl.map Prod.fst := (List.nodup_cons.mp hnd).1
      have hi : r.1 ∈ tl.map Prod.fst := List.mem_map_of_mem Prod.fst hr
      rw [he] at hi
      exact hout hi
    rw [getD_set_ne s p.1 r.1 _ 0 hne]
    exact hval r (List.mem_cons_of_mem _ hr)

end FoldLemmas

section ConfirmLemmas

lemma effective_keys_nodup {b : Dict Int} (h : b.keys.Nodup) :
    (effective b).keys.Nodup := by
  unfold Dict.keys at h
  unfold effective Dict.keys
  exact h.sublist (List.Sublist.map Prod.fst (List.filter_sublist b))

lemma pos_of_mem_effective {b : Dict Int} {p : String × Int}
    (hp : p ∈ effective b) : 0 < p.2 := by
  have := (List.mem_filter.mp hp).2
  simpa using this

lemma order_confirm_empty {STOCK : Dict Int} {file : FileState}
    {lf : LogFile} {sess : Session} {uid : Int} {uname : Option String}
    {ts : String} {saveOk : Bool}
    (h1 : (effective sess.basket).isEmpty = true) :
    order_confirm STOCK file lf sess uid uname ts saveOk =
      ⟨Outcome.emptyBasket, file, lf, sess⟩ := by
  simp [order_confirm, h1]

lemma order_confirm_insufficient {STOCK : Dict Int} {file : FileState}
    {lf : LogFile} {sess : Session} {uid : Int} {uname : Option String}
    {ts : String} {saveOk : Bool} {p : String × Int}
    (h1 : (effective sess.basket).isEmpty = false)
    (h2 : (effective sess.basket).find?
        (fun q => (load_stock STOCK file).getD q.1 0 < q.2) = some p) :
    order_confirm STOCK file lf sess uid uname ts saveOk =
      ⟨Outcome.insufficient p.1, file, lf, sess⟩ := by
  simp [order_confirm, h1, h2]

lemma order_confirm_persist {STOCK : Dict Int} {file : FileState}
    {lf : LogFile} {sess : Session} {uid : Int} {uname : Option String}
    {ts : String}
    (h1 : (effective sess.basket).isEmpty = false)
    (h2 : (effective sess.basket).find?
        (fun q => (load_stock STOCK file).getD q.1 0 < q.2) = none) :
    order_confirm STOCK file lf sess uid uname ts false =
      ⟨Outcome.persistError, file, lf, sess⟩ := by
  simp [order_confirm, h1, h2]

lemma order_confirm_applied {STOCK : Dict Int} {file : FileState}
    {lf : LogFile} {sess : Session} {uid : Int} {uname : Option String}
    {ts : String}
    (h1 : (effective sess.basket).isEmpty = false)
    (h2 : (effective sess.basket).find?
        (fun q => (load_stock STOCK file).getD q.1 0 < q.2) = none) :
    order_confirm STOCK file lf sess uid uname ts true =
      ⟨Outcome.ok,
       save_stock ((effective sess.basket).foldl
         (fun s p => s.set p.1 (s.getD p.1 0 - p.2)) (load_stock STOCK file)),
       append_order_record lf
         ⟨"order", uid, uname, effective sess.basket, sess.return_date, ts⟩,
       { sess with basket := [], return_date := none }⟩ := by
  simp [order_confirm, h1, h2]

lemma order_confirm_ok_inv {STOCK : Dict Int} {file : FileState}
    {lf : LogFile} {sess : Session} {uid : Int} {uname : Option String}
    {ts : String} {saveOk : Bool}
    (hok : (order_confirm STOCK file lf sess uid uname ts saveOk).outcome =
      Outcome.ok) :
    (effective sess.basket).isEmpty = false
    ∧ (effective sess.basket).find?
        (fun q => (load_stock STOCK file).getD q.1 0 < q.2) = none
    ∧ saveOk = true := by
  cases h1 : (effective sess.basket).isEmpty with
  | true =>
    rw [order_confirm_empty h1] at hok
    simp at hok
  | false =>
    cases h2 : (effective sess.basket).find?
        (fun q => (load_stock STOCK file).getD q.1 0 < q.2) with
    | some p =>
      rw [order_confirm_insufficient h1 h2] at hok
      simp at hok
    | none =>
      cases saveOk with
      | false =>
        rw [order_confirm_persist h1 h2] at hok
        simp at hok
      | true => exact ⟨rfl, rfl, rfl⟩

lemma order_confirm_failure_frame {STOCK : Dict Int} {file : FileState}
    {lf : LogFile} {sess : Session} {uid : Int} {uname : Option String}
    {ts : String} {saveOk : Bool}
    (hne : (order_confirm STOCK file lf sess uid uname ts saveOk).outcome ≠
      Outcome.ok) :
    (order_confirm STOCK file lf sess uid uname ts saveOk).file = file
    ∧ (order_confirm STOCK file lf sess uid uname ts saveOk).log = lf
    ∧ (order_confirm STOCK file lf sess uid uname ts saveOk).session = sess := by
  cases h1 : (effective sess.basket).isEmpty with
  | true =>
    rw [order_confirm_empty h1]
    exact ⟨rfl, rfl, rfl⟩
  | false =>
    cases h2 : (effective sess.basket).find?
        (fun q => (load_stock STOCK file).getD q.1 0 < q.2) with
    | some p =>
      rw [order_confirm_insufficient h1 h2]
      exact ⟨rfl, rfl, rfl⟩
    | none =>
      cases saveOk with
      | false =>
        rw [order_confirm_persist h1 h2]
        exact ⟨rfl, rfl, rfl⟩
      | true =>
        exfalso
        apply hne
        rw [order_confirm_applied h1 h2]

lemma return_confirm_empty {STOCK : Dict Int} {file : FileState}
    {lf : LogFile} {sess : Session} {uid : Int} {uname : Option String}
    {ts : String} {saveOk : Bool}
    (h1 : (effective sess.basket).isEmpty = true) :
    return_confirm STOCK file lf sess uid uname ts saveOk =
      ⟨Outcome.emptyBasket, file, lf, sess⟩ := by
  simp [return_confirm, h1]

lemma return_confirm_persist {STOCK : Dict Int} {file : FileState}
    {lf : LogFile} {sess : Session} {uid : Int} {uname : Option String}
    {ts : String}
    (h1 : (effective sess.basket).isEmpty = false) :
    return_confirm STOCK file lf sess uid uname ts false =
      ⟨Outcome.persistError, file, lf, sess⟩ := by
  simp [return_confirm, h1]

lemma return_confirm_applied {STOCK : Dict Int} {file : FileState}
    {lf : LogFile} {sess : Session} {uid : Int} {uname : Option String}
    {ts : String}
    (h1 : (effective sess.basket).isEmpty = false) :
    return_confirm STOCK file lf sess uid uname ts true =
      ⟨Outcome.ok,
       save_stock ((effective sess.basket).foldl
         (fun s p => s.set p.1 (s.getD p.1 0 + p.2)) (load_stock STOCK file)),
       append_order_record lf
         ⟨"return", uid, uname, effective sess.basket, sess.return_date, ts⟩,
       { sess with basket := [], return_date := none }⟩ := by
  simp [return_confirm, h1]

lemma return_confirm_ok_inv {STOCK : Dict Int} {file : FileState}
    {lf : LogFile} {sess : Session} {uid : Int} {uname : Option String}
    {ts : String} {saveOk : Bool}
    (hok : (return_confirm STOCK file lf sess uid uname ts saveOk).outcome =
      Outcome.ok) :
    (effective sess.basket).isEmpty = false ∧ saveOk = true := by
  cases h1 : (effective sess.basket).isEmpty with
  | true =>
    rw [return_confirm_empty h1] at hok
    simp at hok
  | false =>
    cases saveOk with
    | false =>
      rw [return_confirm_persist h1] at hok
      simp at hok
    | true => exact ⟨rfl, rfl⟩

lemma return_confirm_failure_frame {STOCK : Dict Int} {file : FileState}
    {lf : LogFile} {sess : Session} {uid : Int} {uname : Option String}
    {ts : String} {saveOk : Bool}
    (hne : (return_confirm STOCK file lf sess uid uname ts saveOk).outcome ≠
      Outcome.ok) :
    (return_confirm STOCK file lf sess uid uname ts saveOk).file = file
    ∧ (return_confirm STOCK file lf sess uid uname ts saveOk).log = lf
    ∧ (return_confirm STOCK file lf sess uid uname ts saveOk).session = sess := by
  cases h1 : (effective sess.basket).isEmpty with
  | true =>
    rw [return_confirm_empty h1]
    exact ⟨rfl, rfl, rfl⟩
  | false =>
    cases saveOk with
    | false =>
      rw [return_confirm_persist h1]
      exact ⟨rfl, rfl, rfl⟩
    | true =>
      exfalso
      apply hne
      rw [return_confirm_applied h1]

end ConfirmLemmas

section LoadPyLemmas

/-- On a decoded flat integer object — the only document shape the program
itself persists — the full loader returns normally and agrees with the
restricted `load_stock`. -/
lemma load_py_agrees_on_flat (STOCK : Dict Int) (d : Dict Int) :
    load_stock_py STOCK (FileContent.decoded (JsonVal.obj
      (d.map (fun p => (p.1, JsonVal.int p.2))))) =
    Except.ok (load_stock STOCK (FileState.parsed d)) := by
  induction d generalizing STOCK with
  | nil => rfl
  | cons p tl ih =>
    have h1 : load_stock_py STOCK (FileContent.decoded (JsonVal.obj
        ((p :: tl).map (fun q => (q.1, JsonVal.int q.2))))) =
      load_stock_py (STOCK.set p.1 p.2) (FileContent.decoded (JsonVal.obj
        (tl.map (fun q => (q.1, JsonVal.int q.2))))) := rfl
    rw [h1, ih]
    rfl

/-- The merge loop raises as soon as some entry's quantity is rejected by
`int()`. -/
lemma foldlM_load_step_badval (fields : List (String × JsonVal))
    (STOCK : Dict Int) (h : ∃ p ∈ fields, pyInt p.2 = none) :
    fields.foldlM load_step STOCK = Except.error PyError.conversionError := by
  induction fields generalizing STOCK with
  | nil =>
    obtain ⟨p, hp, _⟩ := h
    cases hp
  | cons q tl ih =>
    rw [List.foldlM_cons]
    cases hq : pyInt q.2 with
    | none =>
      rw [show load_step STOCK q = Except.error PyError.conversionError from
        by unfold load_step; rw [hq]]
      rfl
    | some n =>
      rw [show load_step STOCK q = Except.ok (STOCK.set q.1 n) from
        by unfold load_step; rw [hq]]
      show tl.foldlM load_step (STOCK.set q.1 n) =
        Except.error PyError.conversionError
      apply ih
      obtain ⟨p, hp, hpn⟩ := h
      rcases List.mem_cons.mp hp with rfl | hptl
      · rw [hq] at hpn
        cases hpn
      · exact ⟨p, hptl, hpn⟩

end LoadPyLemmas

/-- C5. Basket clamping law: after any sequence of increment and decrement
taps on the fresh basket of a new session, every item's count is
nonnegative; and a decrement aimed at an item whose count is absent or zero
leaves the basket unchanged. -/
theorem basket_clamping (ops : List BasketOp) (item : String)
    (b : Dict Int) (hb : b.getD item 0 ≤ 0) :
    0 ≤ (apply_basket_ops ops).getD item 0 ∧ basket_remove b item = b := by
  constructor
  · have hall : ∀ (l : List BasketOp) (b0 : Dict Int), NonnegD b0 →
        NonnegD (l.foldl
          (fun b op =>
            match op with
            | BasketOp.inc i => basket_add b i
            | BasketOp.dec i => basket_remove b i)
          b0) := by
      intro l
      induction l with
      | nil => intro b0 h; exact h
      | cons op tl ih =>
        intro b0 h
        rw [List.foldl_cons]
        apply ih
        cases op with
        | inc i =>
          show NonnegD (basket_add b0 i)
          unfold basket_add
          exact nonneg_set (by have := getD_nonneg h i; linarith) i h
        | dec i =>
          show NonnegD (basket_remove b0 i)
          unfold basket_remove
          by_cases hpos : b0.getD i 0 > 0
          · rw [if_pos hpos]
            exact nonneg_set (by linarith) i h
          · rw [if_neg hpos]
            exact h
    have hres : NonnegD (apply_basket_ops ops) :=
      hall ops [] (by intro p hp; cases hp)
    exact getD_nonneg hres item
  · unfold basket_remove
    rw [if_neg (not_lt.mpr hb)]

/-- Witness for `basket_clamping` at a concrete tap sequence and a basket
holding a zero count. -/
theorem basket_clamping_check :
    0 ≤ (apply_basket_ops
        [BasketOp.inc "Mic", BasketOp.dec "Mic", BasketOp.dec "Mic"]).getD
        "Mic" 0
    ∧ basket_remove [("Mic", 0)] "Mic" = [("Mic", 0)] :=
  basket_clamping [BasketOp.inc "Mic", BasketOp.dec "Mic", BasketOp.dec "Mic"]
    "Mic" [("Mic", 0)] (by decide)

/-- C10. After every basket add or remove tap, in both order and return
mode, the handler re-renders the item picker with the keyboard for page 0
of the catalog, regardless of which picker page was on screen (the tap
payload carries no page, so the redraw cannot depend on one). -/
theorem add_remove_redraw_page_zero (ITEMS : List String) (sess : Session)
    (idx : Nat) :
    (order_add ITEMS sess idx).2.2 = items_keyboard ITEMS "order" 0
    ∧ (order_remove ITEMS sess idx).2.2 = items_keyboard ITEMS "order" 0
    ∧ (return_add ITEMS sess idx).2.2 = items_keyboard ITEMS "return" 0
    ∧ (return_remove ITEMS sess idx).2.2 = items_keyboard ITEMS "return" 0 :=
  ⟨rfl, rfl, rfl, rfl⟩

/-- C1. An order-mode commit whose effective basket requests more of some
item than the loaded ledger holds fails with the insufficient-stock
outcome naming a short item, leaves the ledger file untouched, and appends
no record to the log. -/
theorem order_commit_insufficient_aborts (STOCK : Dict Int)
    (file : FileState) (lf : LogFile) (sess : Session) (uid : Int)
    (uname : Option String) (ts : String) (saveOk : Bool)
    (h : ∃ p ∈ effective sess.basket,
      (load_stock STOCK file).getD p.1 0 < p.2) :
    (∃ item qty, (item, qty) ∈ effective sess.basket
      ∧ (load_stock STOCK file).getD item 0 < qty
      ∧ (order_confirm STOCK file lf sess uid uname ts saveOk).outcome =
          Outcome.insufficient item)
    ∧ (order_confirm STOCK file lf sess uid uname ts saveOk).file = file
    ∧ (order_confirm STOCK file lf sess uid uname ts saveOk).log = lf := by
  obtain ⟨p, hp, hlt⟩ := h
  have h1 : (effective sess.basket).isEmpty = false := by
    cases hE : effective sess.basket with
    | nil => rw [hE] at hp; cases hp
    | cons a tl => rfl
  cases h2 : (effective sess.basket).find?
      (fun q => (load_stock STOCK file).getD q.1 0 < q.2) with
  | none =>
    exfalso
    have hno := List.find?_eq_none.mp h2 p hp
    simp at hno
    exact absurd hlt (not_lt.mpr hno)
  | some q =>
    have hqmem := List.mem_of_find?_eq_some h2
    have hqlt := List.find?_some h2
    simp at hqlt
    rw [order_confirm_insufficient h1 h2]
    exact ⟨⟨q.1, q.2, hqmem, hqlt, rfl⟩, rfl, rfl⟩

/-- Witness for `order_commit_insufficient_aborts`: requesting three mics
with two in stock. -/
theorem order_commit_insufficient_aborts_check :
    (∃ item qty,
      (item, qty) ∈ effective (Session.mk [("Mic", 3)] none "order").basket
      ∧ (load_stock [("Mic", 2)] FileState.missing).getD item 0 < qty
      ∧ (order_confirm [("Mic", 2)] FileState.missing (LogFile.parsed [])
          (Session.mk [("Mic", 3)] none "order") 1 none "t" true).outcome =
            Outcome.insufficient item)
    ∧ (order_confirm [("Mic", 2)] FileState.missing (LogFile.parsed [])
        (Session.mk [("Mic", 3)] none "order") 1 none "t" true).file =
          FileState.missing
    ∧ (order_confirm [("Mic", 2)] FileState.missing (LogFile.parsed [])
        (Session.mk [("Mic", 3)] none "order") 1 none "t" true).log =
          LogFile.parsed [] :=
  order_commit_insufficient_aborts [("Mic", 2)] FileState.missing
    (LogFile.parsed []) (Session.mk [("Mic", 3)] none "order") 1 none "t"
    true (by decide)

/-- C2. A successful commit persists exactly the per-item deltas of the
effective basket: each effective entry's quantity drops by its count in
order mode and rises by it in return mode, and every key outside the
effective basket keeps its loaded value. -/
theorem commit_applies_exact_deltas (STOCK : Dict Int) (file : FileState)
    (lf : LogFile) (sess : Session) (uid : Int) (uname : Option String)
    (ts : String) (saveOk : Bool) (hnd : sess.basket.keys.Nodup) :
    ((order_confirm STOCK file lf sess uid uname ts saveOk).outcome =
        Outcome.ok →
      ∃ stock2,
        (order_confirm STOCK file lf sess uid uname ts saveOk).file =
          FileState.parsed stock2
        ∧ (∀ p ∈ effective sess.basket,
            stock2.getD p.1 0 = (load_stock STOCK file).getD p.1 0 - p.2)
        ∧ (∀ j, (∀ p ∈ effective sess.basket, p.1 ≠ j) →
            stock2.get? j = (load_stock STOCK file).get? j))
    ∧ ((return_confirm STOCK file lf sess uid uname ts saveOk).outcome =
        Outcome.ok →
      ∃ stock2,
        (return_confirm STOCK file lf sess uid uname ts saveOk).file =
          FileState.parsed stock2
        ∧ (∀ p ∈ effective sess.basket,
            stock2.getD p.1 0 = (load_stock STOCK file).getD p.1 0 + p.2)
        ∧ (∀ j, (∀ p ∈ effective sess.basket, p.1 ≠ j) →
            stock2.get? j = (load_stock STOCK file).get? j)) := by
  constructor
  · intro hok
    obtain ⟨h1, h2, hs⟩ := order_confirm_ok_inv hok
    subst hs
    rw [order_confirm_applied h1 h2]
    refine ⟨_, rfl, ?_, ?_⟩
    · intro p hp
      have hfold := foldl_set_get?_of_mem
        (fun s q => s.set q.1 (s.getD q.1 0 - q.2)) (fun a b => a - b)
        (fun s q => rfl) (effective sess.basket) (load_stock STOCK file)
        p.1 p.2 (effective_keys_nodup hnd) hp
      rw [getD_eq_get?, hfold]
      rfl
    · intro j hj
      exact foldl_set_get?_of_ne
        (fun s q => s.set q.1 (s.getD q.1 0 - q.2)) (fun a b => a - b)
        (fun s q => rfl) (effective sess.basket) (load_stock STOCK file)
        j hj
  · intro hok
    obtain ⟨h1, hs⟩ := return_confirm_ok_inv hok
    subst hs
    rw [return_confirm_applied h1]
    refine ⟨_, rfl, ?_, ?_⟩
    · intro p hp
      have hfold := foldl_set_get?_of_mem
        (fun s q => s.set q.1 (s.getD q.1 0 + q.2)) (fun a b => a + b)
        (fun s q => rfl) (effective sess.basket) (load_stock STOCK file)
        p.1 p.2 (effective_keys_nodup hnd) hp
      rw [getD_eq_get?, hfold]
      rfl
    · intro j hj
      exact foldl_set_get?_of_ne
        (fun s q => s.set q.1 (s.getD q.1 0 + q.2)) (fun a b => a + b)
        (fun s q => rfl) (effective sess.basket) (load_stock STOCK file)
        j hj

/-- Witness for `commit_applies_exact_deltas`: one mic ordered out of two
in stock; the persisted ledger holds the exact deltas. -/
theorem commit_applies_exact_deltas_check :
    ∃ stock2,
      (order_confirm [("Mic", 2)] FileState.missing (LogFile.parsed [])
        (Session.mk [("Mic", 1)] none "order") 1 none "t" true).file =
          FileState.parsed stock2
      ∧ (∀ p ∈ effective (Session.mk [("Mic", 1)] none "order").basket,
          stock2.getD p.1 0 =
            (load_stock [("Mic", 2)] FileState.missing).getD p.1 0 - p.2)
      ∧ (∀ j, (∀ p ∈ effective (Session.mk [("Mic", 1)] none "order").basket,
            p.1 ≠ j) →
          stock2.get? j =
            (load_stock [("Mic", 2)] FileState.missing).get? j) :=
  (commit_applies_exact_deltas [("Mic", 2)] FileState.missing
    (LogFile.parsed []) (Session.mk [("Mic", 1)] none "order") 1 none "t"
    true (by decide)).1 (by decide)

/-- C3. Nonnegativity invariant: when every quantity of the loaded ledger
is nonnegative before a commit, every quantity of the ledger a successful
commit persists (either mode) is still nonnegative. -/
theorem commit_preserves_nonneg (STOCK : Dict Int) (file : FileState)
    (lf : LogFile) (sess : Session) (uid : Int) (uname : Option String)
    (ts : String) (saveOk : Bool) (hnd : sess.basket.keys.Nodup)
    (hpre : NonnegD (load_stock STOCK file)) :
    ((order_confirm STOCK file lf sess uid uname ts saveOk).outcome =
        Outcome.ok →
      ∀ stock2,
        (order_confirm STOCK file lf sess uid uname ts saveOk).file =
          FileState.parsed stock2 → NonnegD stock2)
    ∧ ((return_confirm STOCK file lf sess uid uname ts saveOk).outcome =
        Outcome.ok →
      ∀ stock2,
        (return_confirm STOCK file lf sess uid uname ts saveOk).file =
          FileState.parsed stock2 → NonnegD stock2) := by
  constructor
  · intro hok stock2 hfile
    obtain ⟨h1, h2, hs⟩ := order_confirm_ok_inv hok
    subst hs
    rw [order_confirm_applied h1 h2] at hfile
    simp [save_stock] at hfile
    subst hfile
    refine foldl_set_nonneg
      (fun s q => s.set q.1 (s.getD q.1 0 - q.2)) (fun a b => a - b)
      (fun s q => rfl) (effective sess.basket) (load_stock STOCK file)
      (effective_keys_nodup hnd) hpre ?_
    intro p hp
    show (0 : Int) ≤ (load_stock STOCK file).getD p.1 0 - p.2
    have hno := List.find?_eq_none.mp h2 p hp
    simp at hno
    linarith
  · intro hok stock2 hfile
    obtain ⟨h1, hs⟩ := return_confirm_ok_inv hok
    subst hs
    rw [return_confirm_applied h1] at hfile
    simp [save_stock] at hfile
    subst hfile
    refine foldl_set_nonneg
      (fun s q => s.set q.1 (s.getD q.1 0 + q.2)) (fun a b => a + b)
      (fun s q => rfl) (effective sess.basket) (load_stock STOCK file)
      (effective_keys_nodup hnd) hpre ?_
    intro p hp
    show (0 : Int) ≤ (load_stock STOCK file).getD p.1 0 + p.2
    have h0 := getD_nonneg hpre p.1
    have hpos := pos_of_mem_effective hp
    linarith

/-- Witness for `commit_preserves_nonneg`: ordering the last two mics
leaves a ledger of zero mics, still nonnegative. -/
theorem commit_preserves_nonneg_check : NonnegD [("Mic", 0)] :=
  (commit_preserves_nonneg [("Mic", 2)] FileState.missing
    (LogFile.parsed []) (Session.mk [("Mic", 2)] none "order") 1 none "t"
    true (by decide) (by decide)).1 (by decide) [("Mic", 0)] (by decide)

/-- C6 counterexample.  Not every unreadable or corrupt persisted state
degrades to the defaults: `load_stock` catches only
`json.JSONDecodeError`, so decodable-but-malformed content makes it raise
and fail the caller — a valid-JSON array crashes `data.items()`
(`AttributeError`), a `null` quantity crashes `int(qty)` (`TypeError`),
and bytes that are not UTF-8 crash the text read (`UnicodeDecodeError`). -/
theorem load_stock_fails_caller_on_malformed :
    load_stock_py [("Mic", 2)] (FileContent.decoded (JsonVal.arr [])) =
      Except.error PyError.attributeError
    ∧ load_stock_py [("Mic", 2)] (FileContent.decoded
        (JsonVal.obj [("Mic", JsonVal.null)])) =
      Except.error PyError.conversionError
    ∧ load_stock_py [("Mic", 2)] FileContent.badEncoding =
      Except.error PyError.decodeError :=
  ⟨rfl, rfl, rfl⟩

/-- C6 amended.  A missing file and content that fails JSON decoding load
as exactly the catalog defaults; a decoded flat integer object — the only
document shape the program itself persists — loads normally as the
defaults merged with persisted overrides, the persisted quantity winning
wherever its key is present (keys outside the catalog included) and every
other key keeping its default.  The no-fail recovery stops there: content
that is not UTF-8, a decoded document that is not an object, and an
object holding a quantity `int()` rejects all raise and fail the
caller. -/
theorem load_stock_recovery_boundary (STOCK d : Dict Int)
    (hnd : d.keys.Nodup) (name : String)
    (fields : List (String × JsonVal)) :
    load_stock_py STOCK FileContent.missing = Except.ok STOCK
    ∧ load_stock_py STOCK FileContent.undecodable = Except.ok STOCK
    ∧ load_stock_py STOCK (FileContent.decoded (JsonVal.obj
        (d.map (fun p => (p.1, JsonVal.int p.2))))) =
      Except.ok (load_stock STOCK (FileState.parsed d))
    ∧ (name ∈ d.keys →
        (load_stock STOCK (FileState.parsed d)).get? name = d.get? name)
    ∧ (name ∉ d.keys →
        (load_stock STOCK (FileState.parsed d)).get? name = STOCK.get? name)
    ∧ load_stock_py STOCK FileContent.badEncoding =
        Except.error PyError.decodeError
    ∧ (∀ v : JsonVal, (∀ fs, v ≠ JsonVal.obj fs) →
        load_stock_py STOCK (FileContent.decoded v) =
          Except.error PyError.attributeError)
    ∧ ((∃ p ∈ fields, pyInt p.2 = none) →
        load_stock_py STOCK (FileContent.decoded (JsonVal.obj fields)) =
          Except.error PyError.conversionError) := by
  refine ⟨rfl, rfl, load_py_agrees_on_flat STOCK d, ?_, ?_, rfl, ?_, ?_⟩
  · intro hmem
    unfold Dict.keys at hmem
    obtain ⟨p, hp, hpe⟩ := List.mem_map.mp hmem
    have hpnv : (name, p.2) ∈ d := by
      rw [← hpe]
      exact hp
    rw [get?_of_mem_nodup hnd hpnv]
    exact foldl_set_get?_of_mem (fun merged p => merged.set p.1 p.2)
      (fun a b => b) (fun s q => rfl) d STOCK name p.2 hnd hpnv
  · intro hnmem
    have hne : ∀ p ∈ d, p.1 ≠ name := by
      intro p hp he
      apply hnmem
      unfold Dict.keys
      rw [← he]
      exact List.mem_map_of_mem Prod.fst hp
    exact foldl_set_get?_of_ne (fun merged p => merged.set p.1 p.2)
      (fun a b => b) (fun s q => rfl) d STOCK name hne
  · intro v hv
    cases v with
    | null => rfl
    | bool b => rfl
    | int n => rfl
    | str s => rfl
    | arr xs => rfl
    | obj fs => exact absurd rfl (hv fs)
  · intro h
    exact foldlM_load_step_badval fields STOCK h

/-- Witness for `load_stock_recovery_boundary`: a persisted override, a
key outside the catalog, a catalog key left at its default, and an object
with a `null` quantity that fails the caller. -/
theorem load_stock_recovery_boundary_check :
    load_stock_py [("Mic", 2), ("Cable", 5)] (FileContent.decoded
        (JsonVal.obj [("Mic", JsonVal.int 7), ("Extra", JsonVal.int 1)])) =
      Except.ok (load_stock [("Mic", 2), ("Cable", 5)]
        (FileState.parsed [("Mic", 7), ("Extra", 1)]))
    ∧ (load_stock [("Mic", 2), ("Cable", 5)]
        (FileState.parsed [("Mic", 7), ("Extra", 1)])).get? "Mic" =
      Dict.get? [("Mic", 7), ("Extra", 1)] "Mic"
    ∧ (load_stock [("Mic", 2), ("Cable", 5)]
        (FileState.parsed [("Mic", 7), ("Extra", 1)])).get? "Extra" =
      Dict.get? [("Mic", 7), ("Extra", 1)] "Extra"
    ∧ (load_stock [("Mic", 2), ("Cable", 5)]
        (FileState.parsed [("Mic", 7), ("Extra", 1)])).get? "Cable" =
      Dict.get? [("Mic", 2), ("Cable", 5)] "Cable"
    ∧ load_stock_py [("Mic", 2), ("Cable", 5)] (FileContent.decoded
        (JsonVal.obj [("Mic", JsonVal.null)])) =
      Except.error PyError.conversionError :=
  ⟨(load_stock_recovery_boundary [("Mic", 2), ("Cable", 5)]
      [("Mic", 7), ("Extra", 1)] (by decide) "Mic" []).2.2.1,
   (load_stock_recovery_boundary [("Mic", 2), ("Cable", 5)]
      [("Mic", 7), ("Extra", 1)] (by decide) "Mic" []).2.2.2.1 (by decide),
   (load_stock_recovery_boundary [("Mic", 2), ("Cable", 5)]
      [("Mic", 7), ("Extra", 1)] (by decide) "Extra" []).2.2.2.1 (by decide),
   (load_stock_recovery_boundary [("Mic", 2), ("Cable", 5)]
      [("Mic", 7), ("Extra", 1)] (by decide) "Cable" []).2.2.2.2.1
     (by decide),
   (load_stock_recovery_boundary [("Mic", 2), ("Cable", 5)]
      [("Mic", 7), ("Extra", 1)] (by decide) "Mic"
      [("Mic", JsonVal.null)]).2.2.2.2.2.2.2 (by decide)⟩

/-- C8. Round trip: saving a ledger and loading it back reproduces the
saved quantity at every key present in the saved mapping (catalog keys
included), and resolves every catalog key absent from the saved mapping to
its default. -/
theorem save_then_load_roundtrip (STOCK ledger : Dict Int)
    (hnd : ledger.keys.Nodup) (name : String) :
    (name ∈ ledger.keys →
      (load_stock STOCK (save_stock ledger)).get? name = ledger.get? name)
    ∧ (name ∉ ledger.keys →
      (load_stock STOCK (save_stock ledger)).get? name =
        STOCK.get? name) := by
  constructor
  · intro hmem
    unfold Dict.keys at hmem
    obtain ⟨p, hp, hpe⟩ := List.mem_map.mp hmem
    have hpnv : (name, p.2) ∈ ledger := by
      rw [← hpe]
      exact hp
    rw [get?_of_mem_nodup hnd hpnv]
    exact foldl_set_get?_of_mem (fun merged p => merged.set p.1 p.2)
      (fun a b => b) (fun s q => rfl) ledger STOCK name p.2 hnd hpnv
  · intro hnmem
    have hne : ∀ p ∈ ledger, p.1 ≠ name := by
      intro p hp he
      apply hnmem
      unfold Dict.keys
      rw [← he]
      exact List.mem_map_of_mem Prod.fst hp
    exact foldl_set_get?_of_ne (fun merged p => merged.set p.1 p.2)
      (fun a b => b) (fun s q => rfl) ledger STOCK name hne

/-- Witness for `save_then_load_roundtrip`: the saved quantity of each
saved key survives the round trip. -/
theorem save_then_load_roundtrip_check :
    (load_stock [("Mic", 2), ("Cable", 5)]
      (save_stock [("Mic", 1), ("Cable", 5)])).get? "Mic" =
        Dict.get? [("Mic", 1), ("Cable", 5)] "Mic"
    ∧ (load_stock [("Mic", 2), ("Cable", 5)]
        (save_stock [("Mic", 1), ("Cable", 5)])).get? "Cable" =
          Dict.get? [("Mic", 1), ("Cable", 5)] "Cable" :=
  ⟨(save_then_load_roundtrip [("Mic", 2), ("Cable", 5)]
      [("Mic", 1), ("Cable", 5)] (by decide) "Mic").1 (by decide),
   (save_then_load_roundtrip [("Mic", 2), ("Cable", 5)]
      [("Mic", 1), ("Cable", 5)] (by decide) "Cable").1 (by decide)⟩

/-- C9. The session's basket and date are cleared by a commit exactly when
it succeeds: each failure outcome (empty basket, insufficient stock,
persist failure) leaves the session unchanged, and a persist failure also
appends nothing to the log.  Both modes. -/
theorem commit_clears_session_iff_success (STOCK : Dict Int)
    (file : FileState) (lf : LogFile) (sess : Session) (uid : Int)
    (uname : Option String) (ts : String) (saveOk : Bool) :
    (((order_confirm STOCK file lf sess uid uname ts saveOk).outcome =
        Outcome.ok →
        (order_confirm STOCK file lf sess uid uname ts saveOk).session.basket
          = []
        ∧ (order_confirm STOCK file lf sess uid uname ts
            saveOk).session.return_date = none)
      ∧ ((order_confirm STOCK file lf sess uid uname ts saveOk).outcome ≠
          Outcome.ok →
        (order_confirm STOCK file lf sess uid uname ts saveOk).session =
          sess)
      ∧ ((order_confirm STOCK file lf sess uid uname ts saveOk).outcome =
          Outcome.persistError →
        (order_confirm STOCK file lf sess uid uname ts saveOk).log = lf))
    ∧ (((return_confirm STOCK file lf sess uid uname ts saveOk).outcome =
        Outcome.ok →
        (return_confirm STOCK file lf sess uid uname ts
          saveOk).session.basket = []
        ∧ (return_confirm STOCK file lf sess uid uname ts
            saveOk).session.return_date = none)
      ∧ ((return_confirm STOCK file lf sess uid uname ts saveOk).outcome ≠
          Outcome.ok →
        (return_confirm STOCK file lf sess uid uname ts saveOk).session =
          sess)
      ∧ ((return_confirm STOCK file lf sess uid uname ts saveOk).outcome =
          Outcome.persistError →
        (return_confirm STOCK file lf sess uid uname ts saveOk).log =
          lf)) := by
  constructor
  · refine ⟨?_, ?_, ?_⟩
    · intro hok
      obtain ⟨h1, h2, hs⟩ := order_confirm_ok_inv hok
      subst hs
      rw [order_confirm_applied h1 h2]
      exact ⟨rfl, rfl⟩
    · intro hne
      exact (order_confirm_failure_frame hne).2.2
    · intro hpe
      have hne : (order_confirm STOCK file lf sess uid uname ts
          saveOk).outcome ≠ Outcome.ok := by
        rw [hpe]
        simp
      exact (order_confirm_failure_frame hne).2.1
  · refine ⟨?_, ?_, ?_⟩
    · intro hok
      obtain ⟨h1, hs⟩ := return_confirm_ok_inv hok
      subst hs
      rw [return_confirm_applied h1]
      exact ⟨rfl, rfl⟩
    · intro hne
      exact (return_confirm_failure_frame hne).2.2
    · intro hpe
      have hne : (return_confirm STOCK file lf sess uid uname ts
          saveOk).outcome ≠ Outcome.ok := by
        rw [hpe]
        simp
      exact (return_confirm_failure_frame hne).2.1

/-- Witness for `commit_clears_session_iff_success`: a failed persist
leaves session and log as they were, a successful return clears the
basket. -/
theorem commit_clears_session_iff_success_check :
    (order_confirm [("Mic", 2)] FileState.missing (LogFile.parsed [])
        (Session.mk [("Mic", 1)] (some "2024-05-02") "order") 1 none "t"
        false).session =
      Session.mk [("Mic", 1)] (some "2024-05-02") "order"
    ∧ (order_confirm [("Mic", 2)] FileState.missing (LogFile.parsed [])
        (Session.mk [("Mic", 1)] (some "2024-05-02") "order") 1 none "t"
        false).log = LogFile.parsed []
    ∧ (return_confirm [("Mic", 2)] FileState.missing (LogFile.parsed [])
        (Session.mk [("Mic", 1)] (some "2024-05-02") "return") 1 none "t"
        true).session.basket = [] :=
  ⟨(commit_clears_session_iff_success [("Mic", 2)] FileState.missing
      (LogFile.parsed []) (Session.mk [("Mic", 1)] (some "2024-05-02")
        "order") 1 none "t" false).1.2.1 (by decide),
   (commit_clears_session_iff_success [("Mic", 2)] FileState.missing
      (LogFile.parsed []) (Session.mk [("Mic", 1)] (some "2024-05-02")
        "order") 1 none "t" false).1.2.2 (by decide),
   ((commit_clears_session_iff_success [("Mic", 2)] FileState.missing
      (LogFile.parsed []) (Session.mk [("Mic", 1)] (some "2024-05-02")
        "return") 1 none "t" true).2.1 (by decide)).1⟩

/-- C7 counterexample.  The record type follows the confirm handler that
ran, not the session's stored mode field: the order-confirm callback on a
session whose stored mode is "return" (reachable by entering the return
flow and tapping a stale order keyboard) succeeds and logs a record of
type "order" while the session mode is "return". -/
theorem record_type_vs_session_mode_mismatch :
    (order_confirm [("Mic", 2)] FileState.missing (LogFile.parsed [])
        (Session.mk [("Mic", 1)] none "return") 7 none
        "2024-05-01T10:00:00" true).outcome = Outcome.ok
    ∧ (order_confirm [("Mic", 2)] FileState.missing (LogFile.parsed [])
        (Session.mk [("Mic", 1)] none "return") 7 none
        "2024-05-01T10:00:00" true).log =
      LogFile.parsed
        [Record.mk "order" 7 none [("Mic", 1)] none "2024-05-01T10:00:00"]
    ∧ (Session.mk ([("Mic", 1)] : Dict Int) none "return").mode = "return"
    ∧ ("order" : String) ≠ "return" := by
  decide

/-- C7 amended.  Every record appended by a successful commit has type
"order" or "return" matching the confirm flow that ran (the session's
stored mode field is not consulted), integer user id and optional username
as supplied, basket exactly the effective basket with every count
strictly positive, the session's selected date, and the supplied
timestamp string. -/
theorem commit_record_fields (STOCK : Dict Int) (file : FileState)
    (lf : LogFile) (sess : Session) (uid : Int) (uname : Option String)
    (ts : String) (saveOk : Bool) :
    ((order_confirm STOCK file lf sess uid uname ts saveOk).outcome =
        Outcome.ok →
      (order_confirm STOCK file lf sess uid uname ts saveOk).log =
        LogFile.parsed (log_contents lf ++
          [Record.mk "order" uid uname (effective sess.basket)
            sess.return_date ts])
      ∧ ∀ p ∈ effective sess.basket, 0 < p.2)
    ∧ ((return_confirm STOCK file lf sess uid uname ts saveOk).outcome =
        Outcome.ok →
      (return_confirm STOCK file lf sess uid uname ts saveOk).log =
        LogFile.parsed (log_contents lf ++
          [Record.mk "return" uid uname (effective sess.basket)
            sess.return_date ts])
      ∧ ∀ p ∈ effective sess.basket, 0 < p.2) := by
  constructor
  · intro hok
    obtain ⟨h1, h2, hs⟩ := order_confirm_ok_inv hok
    subst hs
    rw [order_confirm_applied h1 h2]
    exact ⟨rfl, fun p hp => pos_of_mem_effective hp⟩
  · intro hok
    obtain ⟨h1, hs⟩ := return_confirm_ok_inv hok
    subst hs
    rw [return_confirm_applied h1]
    exact ⟨rfl, fun p hp => pos_of_mem_effective hp⟩

/-- Witness for `commit_record_fields` at a successful order commit. -/
theorem commit_record_fields_check :
    (order_confirm [("Mic", 2)] FileState.missing (LogFile.parsed [])
        (Session.mk [("Mic", 1)] none "order") 1 (some "alice") "T"
        true).log =
      LogFile.parsed (log_contents (LogFile.parsed []) ++
        [Record.mk "order" 1 (some "alice")
          (effective (Session.mk [("Mic", 1)] none "order").basket) none
          "T"])
    ∧ ∀ p ∈ effective (Session.mk [("Mic", 1)] none "order").basket,
        0 < p.2 :=
  (commit_record_fields [("Mic", 2)] FileState.missing (LogFile.parsed [])
    (Session.mk [("Mic", 1)] none "order") 1 (some "alice") "T" true).1
    (by decide)

/-- C4. For every `total ≥ 0`, `per_page ≥ 1` and arbitrary integer
`page`, `paginate` returns the page count `max 1 ⌈total / per_page⌉`, a
start index that is the effective page clamped into `[0, pageCount - 1]`
times the page size, and a slice satisfying
`0 ≤ start ≤ stop ≤ total` and `stop - start ≤ per_page`. -/
theorem paginate_bounds (total per_page page : Int)
    (ht : 0 ≤ total) (hp : 1 ≤ per_page) :
    (paginate total per_page page).2.2 =
      max 1 ⌈(total : ℚ) / (per_page : ℚ)⌉
    ∧ (∃ p2 : Int, 0 ≤ p2 ∧ p2 ≤ (paginate total per_page page).2.2 - 1
        ∧ (paginate total per_page page).1 = p2 * per_page)
    ∧ 0 ≤ (paginate total per_page page).1
    ∧ (paginate total per_page page).1 ≤ (paginate total per_page page).2.1
    ∧ (paginate total per_page page).2.1 ≤ total
    ∧ (paginate total per_page page).2.1 - (paginate total per_page page).1
        ≤ per_page := by
  have hp0 : (0 : Int) < per_page := by linarith
  have hfd : (total + per_page - 1).fdiv per_page =
      (total + per_page - 1) / per_page :=
    Int.fdiv_eq_ediv _ (le_of_lt hp0)
  have hdm := Int.ediv_add_emod (total + per_page - 1) per_page
  have hr0 : 0 ≤ (total + per_page - 1) % per_page :=
    Int.emod_nonneg _ (ne_of_gt hp0)
  have hrlt : (total + per_page - 1) % per_page < per_page :=
    Int.emod_lt_of_pos _ hp0
  have hcm : ((total + per_page - 1) / per_page) * per_page =
      per_page * ((total + per_page - 1) / per_page) := mul_comm _ _
  have hq1 : total ≤ ((total + per_page - 1) / per_page) * per_page := by
    linarith
  have hq2 : (((total + per_page - 1) / per_page) - 1) * per_page <
      total := by
    have hexp : (((total + per_page - 1) / per_page) - 1) * per_page =
        ((total + per_page - 1) / per_page) * per_page - per_page := by
      ring
    linarith
  have hc : (0 : ℚ) < (per_page : ℚ) := by exact_mod_cast hp0
  have hceil : ⌈(total : ℚ) / (per_page : ℚ)⌉ =
      (total + per_page - 1) / per_page := by
    rw [Int.ceil_eq_iff]
    constructor
    · rw [lt_div_iff₀ hc]
      exact_mod_cast hq2
    · rw [div_le_iff₀ hc]
      exact_mod_cast hq1
  have hP1 : (1 : Int) ≤ max 1 ((total + per_page - 1).fdiv per_page) :=
    le_max_left _ _
  refine ⟨?_, ?_, ?_, ?_, ?_, ?_⟩
  · show max 1 ((total + per_page - 1).fdiv per_page) =
      max 1 ⌈(total : ℚ) / (per_page : ℚ)⌉
    rw [hfd, hceil]
  · refine ⟨max 0 (min page
        (max 1 ((total + per_page - 1).fdiv per_page) - 1)),
      le_max_left _ _, ?_, rfl⟩
    show max 0 (min page (max 1 ((total + per_page - 1).fdiv per_page) - 1))
        ≤ max 1 ((total + per_page - 1).fdiv per_page) - 1
    exact max_le (by linarith) (min_le_right _ _)
  · exact mul_nonneg (le_max_left _ _) (by linarith)
  · show max 0 (min page
        (max 1 ((total + per_page - 1).fdiv per_page) - 1)) * per_page
      ≤ min total (max 0 (min page
        (max 1 ((total + per_page - 1).fdiv per_page) - 1)) * per_page
        + per_page)
    refine le_min ?_ (by linarith)
    rw [hfd]
    rcases le_or_lt ((total + per_page - 1) / per_page) 1 with hle | hgt
    · rw [max_eq_left hle, show (1 : Int) - 1 = 0 from by norm_num,
        max_eq_left (min_le_right page 0)]
      simpa using ht
    · rw [max_eq_right (le_of_lt hgt)]
      have h2 : max 0 (min page ((total + per_page - 1) / per_page - 1))
          ≤ (total + per_page - 1) / per_page - 1 :=
        max_le (by linarith) (min_le_right _ _)
      have h3 := mul_le_mul_of_nonneg_right h2
        (by linarith : (0 : Int) ≤ per_page)
      linarith
  · exact min_le_left _ _
  · show min total (max 0 (min page
        (max 1 ((total + per_page - 1).fdiv per_page) - 1)) * per_page
        + per_page)
      - max 0 (min page
        (max 1 ((total + per_page - 1).fdiv per_page) - 1)) * per_page
      ≤ per_page
    have hmr := min_le_right total (max 0 (min page
      (max 1 ((total + per_page - 1).fdiv per_page) - 1)) * per_page
      + per_page)
    linarith

/-- Witness for `paginate_bounds` at a concrete call with a negative
requested page. -/
theorem paginate_bounds_check :
    (0 : Int) ≤ 25 ∧ (1 : Int) ≤ 10
    ∧ ((paginate 25 10 (-3)).2.2 =
        max 1 ⌈((25 : Int) : ℚ) / ((10 : Int) : ℚ)⌉
      ∧ (∃ p2 : Int, 0 ≤ p2 ∧ p2 ≤ (paginate 25 10 (-3)).2.2 - 1
          ∧ (paginate 25 10 (-3)).1 = p2 * 10)
      ∧ 0 ≤ (paginate 25 10 (-3)).1
      ∧ (paginate 25 10 (-3)).1 ≤ (paginate 25 10 (-3)).2.1
      ∧ (paginate 25 10 (-3)).2.1 ≤ 25
      ∧ (paginate 25 10 (-3)).2.1 - (paginate 25 10 (-3)).1 ≤ 10) :=
  ⟨by norm_num, by norm_num,
   paginate_bounds 25 10 (-3) (by norm_num) (by norm_num)⟩

end StockBot
